import Mathlib

/-!
# Verification of the rocksdb-cli interactive shell

Shallow embedding of the command-loop / store-browser code:

* `src/cmd/src/db.rs`            — `DBHelper` (get/put/keys/scan/search)
* `src/cmd/src/utility.rs`       — `highlight_pattern`
* `src/cmd/src/cli_processor.rs` — `CliProcessor` (dispatch, limits, `use`)
* `src/cmd/src/command.rs`       — the `DBCommand` grammar
* `src/rustyrepl/src/repl/mod.rs` — the REPL loop and history path resolution

Keys, values and patterns are byte strings, modelled as `List Nat`.
The external ordered store (RocksDB) is modelled per column family as an
association list sorted ascending by the bytewise lexicographic order,
which is the interface the spec assumes of the storage engine.
Rust panics (e.g. `unwrap` on a missing column-family handle, or
`slice::windows(0)`) are modelled by `Option`-valued results, `none`
standing for the panic.
-/

set_option autoImplicit false

namespace RocksCli

/-- A byte string: keys, values and search patterns. -/
abbrev Bytes := List Nat

/-- One stored key/value pair. -/
abbrev Entry := Bytes × Bytes

/-- The contents of one column family: entries sorted ascending by key. -/
abbrev CF := List Entry

/-- Bytewise lexicographic strict order on byte strings (the RocksDB
default comparator): `[] < x::xs`, and elementwise on heads. -/
def bytesLt : Bytes → Bytes → Bool
  | [], [] => false
  | [], _ :: _ => true
  | _ :: _, [] => false
  | a :: as, b :: bs => if a < b then true else if b < a then false else bytesLt as bs

/-- Non-strict bytewise lexicographic order. -/
def bytesLe (a b : Bytes) : Bool := bytesLt a b || a == b

/-- Store-level point lookup in one column family (RocksDB `get_cf`). -/
def cfGet : CF → Bytes → Option Bytes
  | [], _ => none
  | (k, v) :: rest, key => if k = key then some v else cfGet rest key

/-- Store-level insert-or-overwrite in one column family (RocksDB
`put_cf`), keeping the entries sorted by key. -/
def cfPut : CF → Bytes → Bytes → CF
  | [], key, val => [(key, val)]
  | (k, v) :: rest, key, val =>
    if bytesLt key k then (key, val) :: (k, v) :: rest
    else if key = k then (key, val) :: rest
    else (k, v) :: cfPut rest key val

/-- Store-level delete in one column family (RocksDB `delete_cf`);
deleting an absent key is a no-op, matching the idempotent store delete. -/
def cfDelete : CF → Bytes → CF
  | [], _ => []
  | (k, v) :: rest, key => if k = key then rest else (k, v) :: cfDelete rest key

end RocksCli

namespace RocksCli

/-- Lookup of a named column family (RocksDB `cf_handle`). -/
def lookupCF : List (String × CF) → String → Option CF
  | [], _ => none
  | (n, cf) :: rest, name => if n = name then some cf else lookupCF rest name

/-- Replace the contents of a named column family. -/
def setCF : List (String × CF) → String → CF → List (String × CF)
  | [], _, _ => []
  | (n, cf) :: rest, name, cf' =>
    if n = name then (n, cf') :: rest else (n, cf) :: setCF rest name cf'

/-- State of `DBHelper` (src/cmd/src/db.rs): the open store (one sorted
association list per column family), the store path, the active column
family name, and the column-family list captured at startup. -/
structure DBHelperState where
  cfs : List (String × CF)
  path : String
  current_cf : String
  cf_list : List String

/-- `DBHelper::new`: the column-family list comes from `DB::list_cf`, the
store is opened with exactly those column families (`data` gives each one
its on-disk contents), and `current_cf` is the empty string when the list
is empty, otherwise its first element. -/
def DBHelper.new (path : String) (cf_list : List String) (data : String → CF) :
    DBHelperState :=
  { cfs := cf_list.map fun n => (n, data n)
    path := path
    current_cf := if cf_list.isEmpty then "" else cf_list.headD ""
    cf_list := cf_list }

/-- `DBHelper::get_cf_handle`: `self.db.cf_handle(name)`. -/
def DBHelper.get_cf_handle (st : DBHelperState) (name : String) : Option CF :=
  lookupCF st.cfs name

/-- The confirmation printed by `DBHelper::put`
(`"Successfully put {key} {value}"`). -/
inductive PutOutput
  | success (key value : Bytes)
deriving DecidableEq

/-- What `DBHelper::get` prints. `as_json = true` additionally runs the
value through an external JSON string decoder before display; that decoder
is an external collaborator and is left abstract in `jsonView`. -/
inductive GetOutput
  | keyValue (key value : Bytes)
  | jsonView (key rawValue : Bytes)
  | notFound
deriving DecidableEq

/-- `DBHelper::put`: unwrap the active column-family handle (`none`
models the panic when it is missing), write the pair, print the
confirmation. -/
def DBHelper.put (st : DBHelperState) (key value : Bytes) :
    Option (DBHelperState × PutOutput) :=
  (DBHelper.get_cf_handle st st.current_cf).map fun cf =>
    ({ st with cfs := setCF st.cfs st.current_cf (cfPut cf key value) },
      PutOutput.success key value)

/-- `DBHelper::get`: unwrap the active column-family handle, look the key
up; absent keys print "Key not found" (`notFound`), present keys print the
pair (`keyValue`) unless `as_json` requests the JSON view. -/
def DBHelper.get (st : DBHelperState) (key : Bytes) (as_json : Bool) :
    Option GetOutput :=
  (DBHelper.get_cf_handle st st.current_cf).map fun cf =>
    match cfGet cf key with
    | some value =>
      if as_json then GetOutput.jsonView key value else GetOutput.keyValue key value
    | none => GetOutput.notFound

/-- The range restriction `DBHelper::scan` installs through
`ReadOptions::set_iterate_lower_bound` / `set_iterate_upper_bound`:
the lower bound is inclusive, the upper bound exclusive (RocksDB
semantics), each bound optional. -/
def inBounds (start stop : Option Bytes) (k : Bytes) : Bool :=
  (match start with
    | none => true
    | some s => bytesLe s k) &&
  (match stop with
    | none => true
    | some e => bytesLt k e)

/-- `DBHelper::scan`: iterate the active column family under the
configured bounds, from `IteratorMode::Start` ascending when `reverse` is
false, from `IteratorMode::End` descending when `reverse` is true.
On the sorted column family this is the in-bound sublist, reversed for
the descending direction. `none` models the `unwrap` panic on a missing
column-family handle. -/
def DBHelper.scan (st : DBHelperState) (start stop : Option Bytes) (reverse : Bool) :
    Option (List Entry) :=
  (DBHelper.get_cf_handle st st.current_cf).map fun cf =>
    let key_values := cf.filter fun e => inBounds start stop e.1
    if reverse then key_values.reverse else key_values

/-- The loop body of `DBHelper::get_keys`: push the key first, then stop
as soon as `keys.len() >= limit`. -/
def getKeysLoop (limit : Nat) : CF → List Bytes → List Bytes
  | [], keys => keys
  | (k, _) :: rest, keys =>
    let keys2 := keys ++ [k]
    if limit ≤ keys2.length then keys2 else getKeysLoop limit rest keys2

/-- `DBHelper::get_keys`: forward-iterate the active column family
collecting keys with the push-then-check loop above (iteration errors are
logged and skipped; the model iterates error-free). -/
def DBHelper.get_keys (st : DBHelperState) (limit : Nat) : Option (List Bytes) :=
  (DBHelper.get_cf_handle st st.current_cf).map fun cf => getKeysLoop limit cf []

/-- Where `CliProcessor::print_or_output_to_file` routes the rows. -/
inductive EmitDest
  | table
  | file (path : String)
deriving DecidableEq

/-- `CliProcessor::print_or_output_to_file`: route to the output file when
a path was given, else to the batched table; in both routes emit every row
when `all` is set and `take(limit)` rows otherwise. -/
def CliProcessor.print_or_output_to_file (key_values : List Entry) (all : Bool)
    (limit : Nat) (output : Option String) : EmitDest × List Entry :=
  match output with
  | some out_file =>
    (EmitDest.file out_file, if all then key_values else key_values.take limit)
  | none =>
    (EmitDest.table, if all then key_values else key_values.take limit)

/-- Rust `slice::windows(n)` for positive `n`: every contiguous window of
width `n`, left to right; empty when the slice is shorter than `n`. -/
def windowsPos (n : Nat) : Bytes → List Bytes
  | [] => []
  | a :: rest =>
    if n ≤ (a :: rest).length then (a :: rest).take n :: windowsPos n rest else []

/-- Rust `slice::windows(n)`: the width-zero case panics at runtime
(`none`); otherwise the window list. -/
def windows (n : Nat) (l : Bytes) : Option (List Bytes) :=
  if n = 0 then none else some (windowsPos n l)

/-- The sliding-window substring test used by `DBHelper::search_key` and
`DBHelper::search_value`:
`hay.windows(pattern.len()).any(|window| window == pattern)`. -/
def windowsMatch (pattern hay : Bytes) : Option Bool :=
  (windows pattern.length hay).map fun ws => ws.any fun w => w == pattern

/-- Boolean prefix test on byte strings. -/
def leadsWith : Bytes → Bytes → Bool
  | [], _ => true
  | _ :: _, [] => false
  | a :: as, b :: bs => a == b && leadsWith as bs

/-- Byte index of the leftmost occurrence of `p`, as Rust
`str::match_indices` finds it. -/
def findSub (p : Bytes) : Bytes → Option Nat
  | [] => if leadsWith p [] then some 0 else none
  | a :: rest =>
    if leadsWith p (a :: rest) then some 0 else (findSub p rest).map (· + 1)

/-- The ANSI escape the `colored` crate emits before a bright-magenta
span (`"\x1b[95m"`). -/
def hlPre : Bytes := [27, 91, 57, 53, 109]

/-- The ANSI reset escape closing the span (`"\x1b[0m"`). -/
def hlPost : Bytes := [27, 91, 48, 109]

/-- One highlighted occurrence of the pattern as `highlight_pattern`
emits it: the match wrapped in the bright-magenta escapes. -/
def hlWrap (p : Bytes) : Bytes := hlPre ++ p ++ hlPost

theorem leadsWith_eq_take (p : Bytes) :
    ∀ l : Bytes, leadsWith p l = true ↔ l.take p.length = p := by
  induction p with
  | nil => intro l; simp [leadsWith]
  | cons a as ih =>
    intro l
    cases l with
    | nil => simp [leadsWith]
    | cons b bs =>
      simp only [leadsWith, Bool.and_eq_true, beq_iff_eq, List.length_cons,
        List.take_succ_cons, List.cons.injEq]
      constructor
      · rintro ⟨h1, h2⟩; exact ⟨h1.symm, (ih bs).mp h2⟩
      · rintro ⟨h1, h2⟩; exact ⟨h1.symm, (ih bs).mpr h2⟩

theorem findSub_le_length (p : Bytes) (hp : p ≠ []) :
    ∀ (l : Bytes) (i : Nat), findSub p l = some i → i + p.length ≤ l.length := by
  intro l
  induction l with
  | nil =>
    intro i h
    obtain ⟨a, as, rfl⟩ := List.exists_cons_of_ne_nil hp
    simp [findSub, leadsWith] at h
  | cons b bs ih =>
    intro i h
    by_cases hlead : leadsWith p (b :: bs) = true
    · have htake := (leadsWith_eq_take p (b :: bs)).mp hlead
      have : p.length ≤ (b :: bs).length := by
        conv_lhs => rw [← htake]
        exact List.length_take_le' p.length (b :: bs)
      simp only [findSub, hlead, if_true, Option.some.injEq] at h
      omega
    · simp only [findSub, hlead, if_false] at h
      cases hfs : findSub p bs with
      | none => rw [hfs] at h; simp at h
      | some j =>
        rw [hfs] at h
        simp at h
        have hj := ih j hfs
        simp only [List.length_cons]
        omega

set_option linter.unusedVariables false in
/-- The `for (index, _) in text.match_indices(pattern)` loop of
`highlight_pattern` (src/cmd/src/utility.rs): copy the gap before each
non-overlapping leftmost occurrence, emit the occurrence wrapped in the
bright-magenta escapes, and resume after it. -/
def highlight_go (p : Bytes) (text : Bytes) : Bytes :=
  if hp : p.length = 0 then text
  else
    match hfind : findSub p text with
    | none => text
    | some i => text.take i ++ hlWrap p ++ highlight_go p (text.drop (i + p.length))
termination_by text.length
decreasing_by
  have hpnil : p ≠ [] := fun h => hp (by simp [h])
  have hbound := findSub_le_length p hpnil text i hfind
  simp only [List.length_drop]
  omega

set_option linter.unusedVariables false in
/-- The segments of `text` around the non-overlapping leftmost
occurrences of `p`: joining them with `p` itself restores `text`, joining
them with `hlWrap p` is the fully highlighted rendering. -/
def splitSub (p : Bytes) (text : Bytes) : List Bytes :=
  if hp : p.length = 0 then [text]
  else
    match hfind : findSub p text with
    | none => [text]
    | some i => text.take i :: splitSub p (text.drop (i + p.length))
termination_by text.length
decreasing_by
  have hpnil : p ≠ [] := fun h => hp (by simp [h])
  have hbound := findSub_le_length p hpnil text i hfind
  simp only [List.length_drop]
  omega

/-- Whether a continuation byte is in `0x80..=0xBF`. -/
def contByte (b : Nat) : Bool := 128 ≤ b && b ≤ 191

/-- Strict UTF-8 validity as Rust `str::from_utf8` checks it (leading
byte classes with their continuation ranges; overlongs, surrogates and
values beyond U+10FFFF rejected). -/
def validUtf8 : Bytes → Bool
  | [] => true
  | b :: rest =>
    if b ≤ 127 then validUtf8 rest
    else if 194 ≤ b && b ≤ 223 then
      match rest with
      | c1 :: rest2 => contByte c1 && validUtf8 rest2
      | [] => false
    else if b = 224 then
      match rest with
      | c1 :: c2 :: rest2 => (160 ≤ c1 && c1 ≤ 191) && contByte c2 && validUtf8 rest2
      | _ => false
    else if 225 ≤ b && b ≤ 236 then
      match rest with
      | c1 :: c2 :: rest2 => contByte c1 && contByte c2 && validUtf8 rest2
      | _ => false
    else if b = 237 then
      match rest with
      | c1 :: c2 :: rest2 => (128 ≤ c1 && c1 ≤ 159) && contByte c2 && validUtf8 rest2
      | _ => false
    else if 238 ≤ b && b ≤ 239 then
      match rest with
      | c1 :: c2 :: rest2 => contByte c1 && contByte c2 && validUtf8 rest2
      | _ => false
    else if b = 240 then
      match rest with
      | c1 :: c2 :: c3 :: rest2 =>
        (144 ≤ c1 && c1 ≤ 191) && contByte c2 && contByte c3 && validUtf8 rest2
      | _ => false
    else if 241 ≤ b && b ≤ 243 then
      match rest with
      | c1 :: c2 :: c3 :: rest2 =>
        contByte c1 && contByte c2 && contByte c3 && validUtf8 rest2
      | _ => false
    else if b = 244 then
      match rest with
      | c1 :: c2 :: c3 :: rest2 =>
        (128 ≤ c1 && c1 ≤ 143) && contByte c2 && contByte c3 && validUtf8 rest2
      | _ => false
    else false

/-- `highlight_pattern` (src/cmd/src/utility.rs): empty patterns and
non-UTF-8 candidates are returned untouched; otherwise every
non-overlapping occurrence of the pattern is wrapped in the
bright-magenta escapes by the `match_indices` loop. -/
def highlight_pattern (pattern : Bytes) (candidates : Bytes) : Bytes :=
  if pattern.isEmpty then candidates
  else if validUtf8 candidates then highlight_go pattern candidates
  else candidates

/-- The `filter`/`map` chain of `DBHelper::search_key`: keep the entries
whose key has a window equal to the pattern, then highlight the *value*
when requested. `none` models the `windows(0)` panic reached as soon as
the predicate is evaluated on some entry. -/
def searchKeyGo (pattern : Bytes) (highlight_matched : Bool) : CF → Option CF
  | [] => some []
  | (key, value) :: rest =>
    match windowsMatch pattern key with
    | none => none
    | some b =>
      match searchKeyGo pattern highlight_matched rest with
      | none => none
      | some tail =>
        some (if b then
          (key, if highlight_matched then highlight_pattern pattern value else value) :: tail
        else tail)

/-- The `filter`/`map` chain of `DBHelper::search_value`: same as
`searchKeyGo` with the window test on the value side; the highlight still
lands on the value. -/
def searchValueGo (pattern : Bytes) (highlight_matched : Bool) : CF → Option CF
  | [] => some []
  | (key, value) :: rest =>
    match windowsMatch pattern value with
    | none => none
    | some b =>
      match searchValueGo pattern highlight_matched rest with
      | none => none
      | some tail =>
        some (if b then
          (key, if highlight_matched then highlight_pattern pattern value else value) :: tail
        else tail)

/-- `DBHelper::search_key` over the (already unwrapped) active column
family: a full scan through the window-based key matcher. -/
def DBHelper.search_key (cf : CF) (pattern : Bytes) (highlight_matched : Bool) :
    Option CF :=
  searchKeyGo pattern highlight_matched cf

/-- `DBHelper::search_value` over the active column family: a full scan
through the window-based value matcher. -/
def DBHelper.search_value (cf : CF) (pattern : Bytes) (highlight_matched : Bool) :
    Option CF :=
  searchValueGo pattern highlight_matched cf

/-- Entrywise ascending sortedness of a column family, the invariant the
external ordered store maintains. -/
def cfSorted (cf : CF) : Prop :=
  cf.Pairwise fun e f => bytesLt e.1 f.1 = true

/-- The six-key column family `{a, b, c, d, e, f}` of the C5 example. -/
def cfSix : CF :=
  [([97], [0]), ([98], [0]), ([99], [0]), ([100], [0]), ([101], [0]), ([102], [0])]

/-- The `DBCommand` grammar (src/cmd/src/command.rs): the closed set of
commands the shell accepts, with the field defaults recorded by the
parser model below. -/
inductive DBCommand
  | list
  | info
  | use (name : String)
  | get (key : String) (json : Bool)
  | keys (limit : Nat)
  | containsKey (key : String)
  | searchValue (value : String) (with_highlight : Bool) (limit : Nat) (all : Bool)
      (output : Option String)
  | searchKey (key : String) (with_highlight : Bool) (limit : Nat) (all : Bool)
      (output : Option String)
  | put (key value : String)
  | delete (key : String)
  | scan (start stop : Option String) (reverse : Bool) (limit : Nat) (all : Bool)
      (output : Option String)
  | prefixScan (pre : String) (with_highlight : Bool) (limit : Nat) (all : Bool)
      (output : Option String)
  | exit
deriving DecidableEq

/-- Outcome of `C::try_parse_from` as the REPL loop observes it:
a parsed command, help/version text to print (clap reports those as the
`DisplayHelp`/`DisplayVersion` error kinds), or a parse error. -/
inductive ParseOutcome (C : Type)
  | ok (cmd : C)
  | display (text : String)
  | err (msg : String)
deriving DecidableEq

/-- `use <name>`: one required positional argument. -/
def parseUseArgs : List String → ParseOutcome DBCommand
  | [name] => ParseOutcome.ok (DBCommand.use name)
  | [] => ParseOutcome.err "missing required argument name"
  | _ => ParseOutcome.err "unexpected argument"

/-- `get <key> [--json]`: one required positional, one boolean flag. -/
def parseGetArgs : List String → Option String → Bool → ParseOutcome DBCommand
  | [], none, _ => ParseOutcome.err "missing required argument key"
  | [], some k, j => ParseOutcome.ok (DBCommand.get k j)
  | a :: rest, k, j =>
    if a = "--json" || a = "-j" then parseGetArgs rest k true
    else if k.isNone then parseGetArgs rest (some a) j
    else ParseOutcome.err "unexpected argument"

/-- `keys [--limit N]`: numeric flag, default 10000. -/
def parseKeysArgs : List String → Nat → ParseOutcome DBCommand
  | [], limit => ParseOutcome.ok (DBCommand.keys limit)
  | a :: rest, limit =>
    if a = "--limit" || a = "-l" then
      match rest with
      | v :: rest2 =>
        match v.toNat? with
        | some n => parseKeysArgs rest2 n
        | none => ParseOutcome.err "invalid numeric value"
      | [] => ParseOutcome.err "missing value for limit"
    else
      let _ := limit
      ParseOutcome.err "unexpected argument"

/-- `contains-key --key <key>`: one required option. -/
def parseContainsKeyArgs : List String → Option String → ParseOutcome DBCommand
  | [], some k => ParseOutcome.ok (DBCommand.containsKey k)
  | [], none => ParseOutcome.err "missing required option key"
  | a :: rest, acc =>
    if a = "--key" || a = "-k" then
      match rest with
      | v :: rest2 => parseContainsKeyArgs rest2 (some v)
      | [] => ParseOutcome.err "missing value for key"
    else
      let _ := acc
      ParseOutcome.err "unexpected argument"

/-- `search-value --value <p> [--with-highlight] [--limit N] [--all]
[--output <file>]`; limit defaults to 1000. -/
def parseSearchValueArgs : List String → Option String → Bool → Nat → Bool →
    Option String → ParseOutcome DBCommand
  | [], some v, w, l, a, o => ParseOutcome.ok (DBCommand.searchValue v w l a o)
  | [], none, _, _, _, _ => ParseOutcome.err "missing required option value"
  | t :: rest, v, w, l, a, o =>
    if t = "--value" || t = "-v" then
      match rest with
      | x :: rest2 => parseSearchValueArgs rest2 (some x) w l a o
      | [] => ParseOutcome.err "missing value"
    else if t = "--with-highlight" || t = "-w" then parseSearchValueArgs rest v true l a o
    else if t = "--limit" || t = "-l" then
      match rest with
      | x :: rest2 =>
        match x.toNat? with
        | some n => parseSearchValueArgs rest2 v w n a o
        | none => ParseOutcome.err "invalid numeric value"
      | [] => ParseOutcome.err "missing value"
    else if t = "--all" || t = "-a" then parseSearchValueArgs rest v w l true o
    else if t = "--output" || t = "-o" then
      match rest with
      | x :: rest2 => parseSearchValueArgs rest2 v w l a (some x)
      | [] => ParseOutcome.err "missing value"
    else ParseOutcome.err "unexpected argument"

/-- `search-key --key <p>` with the same flag set as `search-value`. -/
def parseSearchKeyArgs : List String → Option String → Bool → Nat → Bool →
    Option String → ParseOutcome DBCommand
  | [], some k, w, l, a, o => ParseOutcome.ok (DBCommand.searchKey k w l a o)
  | [], none, _, _, _, _ => ParseOutcome.err "missing required option key"
  | t :: rest, k, w, l, a, o =>
    if t = "--key" || t = "-k" then
      match rest with
      | x :: rest2 => parseSearchKeyArgs rest2 (some x) w l a o
      | [] => ParseOutcome.err "missing value"
    else if t = "--with-highlight" || t = "-w" then parseSearchKeyArgs rest k true l a o
    else if t = "--limit" || t = "-l" then
      match rest with
      | x :: rest2 =>
        match x.toNat? with
        | some n => parseSearchKeyArgs rest2 k w n a o
        | none => ParseOutcome.err "invalid numeric value"
      | [] => ParseOutcome.err "missing value"
    else if t = "--all" || t = "-a" then parseSearchKeyArgs rest k w l true o
    else if t = "--output" || t = "-o" then
      match rest with
      | x :: rest2 => parseSearchKeyArgs rest2 k w l a (some x)
      | [] => ParseOutcome.err "missing value"
    else ParseOutcome.err "unexpected argument"

/-- `put <key> <value>`: two required positionals. -/
def parsePutArgs : List String → ParseOutcome DBCommand
  | [k, v] => ParseOutcome.ok (DBCommand.put k v)
  | [] => ParseOutcome.err "missing required argument"
  | [_] => ParseOutcome.err "missing required argument"
  | _ => ParseOutcome.err "unexpected argument"

/-- `delete <key>`: one required positional. -/
def parseDeleteArgs : List String → ParseOutcome DBCommand
  | [k] => ParseOutcome.ok (DBCommand.delete k)
  | [] => ParseOutcome.err "missing required argument"
  | _ => ParseOutcome.err "unexpected argument"

/-- `scan [--start S] [--end E] [--reverse] [--limit N] [--all]
[--output <file>]`; limit defaults to 100. -/
def parseScanArgs : List String → Option String → Option String → Bool → Nat → Bool →
    Option String → ParseOutcome DBCommand
  | [], s, e, r, l, a, o => ParseOutcome.ok (DBCommand.scan s e r l a o)
  | t :: rest, s, e, r, l, a, o =>
    if t = "--start" || t = "-s" then
      match rest with
      | x :: rest2 => parseScanArgs rest2 (some x) e r l a o
      | [] => ParseOutcome.err "missing value"
    else if t = "--end" || t = "-e" then
      match rest with
      | x :: rest2 => parseScanArgs rest2 s (some x) r l a o
      | [] => ParseOutcome.err "missing value"
    else if t = "--reverse" || t = "-r" then parseScanArgs rest s e true l a o
    else if t = "--limit" || t = "-l" then
      match rest with
      | x :: rest2 =>
        match x.toNat? with
        | some n => parseScanArgs rest2 s e r n a o
        | none => ParseOutcome.err "invalid numeric value"
      | [] => ParseOutcome.err "missing value"
    else if t = "--all" || t = "-a" then parseScanArgs rest s e r l true o
    else if t = "--output" || t = "-o" then
      match rest with
      | x :: rest2 => parseScanArgs rest2 s e r l a (some x)
      | [] => ParseOutcome.err "missing value"
    else ParseOutcome.err "unexpected argument"

/-- The prefix subcommand with its required pattern option, highlight
flag and the shared limit/all/output flags; limit defaults to 100. -/
def parsePrefixArgs : List String → Option String → Bool → Nat → Bool →
    Option String → ParseOutcome DBCommand
  | [], some p, w, l, a, o => ParseOutcome.ok (DBCommand.prefixScan p w l a o)
  | [], none, _, _, _, _ => ParseOutcome.err "missing required option"
  | t :: rest, p, w, l, a, o =>
    if t = "--prefix" || t = "-p" then
      match rest with
      | x :: rest2 => parsePrefixArgs rest2 (some x) w l a o
      | [] => ParseOutcome.err "missing value"
    else if t = "--with-highlight" || t = "-w" then parsePrefixArgs rest p true l a o
    else if t = "--limit" || t = "-l" then
      match rest with
      | x :: rest2 =>
        match x.toNat? with
        | some n => parsePrefixArgs rest2 p w n a o
        | none => ParseOutcome.err "invalid numeric value"
      | [] => ParseOutcome.err "missing value"
    else if t = "--all" || t = "-a" then parsePrefixArgs rest p w l true o
    else if t = "--output" || t = "-o" then
      match rest with
      | x :: rest2 => parsePrefixArgs rest2 p w l a (some x)
      | [] => ParseOutcome.err "missing value"
    else ParseOutcome.err "unexpected argument"

/-- The first tokens `InterCli::try_parse_from` recognizes: the thirteen
subcommand names plus the grammar-generated help and version tokens. -/
def recognizedHead (w : String) : Bool :=
  w = "help" || w = "--help" || w = "-h" || w = "--version" || w = "-V" ||
  w = "list" || w = "info" || w = "use" || w = "get" || w = "keys" ||
  w = "contains-key" || w = "search-value" || w = "search-key" || w = "put" ||
  w = "delete" || w = "scan" || w = "prefix" || w = "exit"

/-- Model of `InterCli::try_parse_from` (the clap derive over
src/cmd/src/command.rs): the first element is the argv[0]-style program
name placeholder, the next token selects the subcommand (case-sensitive,
as clap matches), `help`/`--help`/`-h` and `--version`/`-V` print
grammar-generated text, and anything unrecognized — or bad/missing
arguments in the per-subcommand parsers above — is a parse error. -/
def tryParseFrom : List String → ParseOutcome DBCommand
  | [] => ParseOutcome.err "empty argv"
  | _ :: args =>
    match args with
    | [] => ParseOutcome.err "missing subcommand"
    | w :: rest =>
      if w = "help" || w = "--help" || w = "-h" then ParseOutcome.display "help"
      else if w = "--version" || w = "-V" then ParseOutcome.display "version"
      else if w = "list" then
        (if rest.isEmpty then ParseOutcome.ok DBCommand.list
         else ParseOutcome.err "unexpected argument")
      else if w = "info" then
        (if rest.isEmpty then ParseOutcome.ok DBCommand.info
         else ParseOutcome.err "unexpected argument")
      else if w = "use" then parseUseArgs rest
      else if w = "get" then parseGetArgs rest none false
      else if w = "keys" then parseKeysArgs rest 10000
      else if w = "contains-key" then parseContainsKeyArgs rest none
      else if w = "search-value" then parseSearchValueArgs rest none false 1000 false none
      else if w = "search-key" then parseSearchKeyArgs rest none false 1000 false none
      else if w = "put" then parsePutArgs rest
      else if w = "delete" then parseDeleteArgs rest
      else if w = "scan" then parseScanArgs rest none none false 100 false none
      else if w = "prefix" then parsePrefixArgs rest none false 100 false none
      else if w = "exit" then
        (if rest.isEmpty then ParseOutcome.ok DBCommand.exit
         else ParseOutcome.err "unexpected argument")
      else ParseOutcome.err "unrecognized subcommand"

/-- Whitespace as `shell_words` treats it between words. -/
def isWs (c : Char) : Bool := c = ' ' || c = '\t' || c = '\n' || c = '\r'

/-- The single-quote character. -/
def quoteChar : Char := Char.ofNat 39

/-- The double-quote character. -/
def dquoteChar : Char := Char.ofNat 34

/-- The backslash character. -/
def backslashChar : Char := Char.ofNat 92

/-- The backquote character (escapable inside double quotes). -/
def backquoteChar : Char := Char.ofNat 96

/-- The dollar character (escapable inside double quotes). -/
def dollarChar : Char := '$'

/-- POSIX shell splitting as the `shell_words` crate performs it.
`mode` 0 is unquoted, 1 single-quoted, 2 double-quoted; `cur` is the word
being accumulated (`none` between words — note that a closed pair of
quotes yields an empty word); an unterminated quote or trailing
backslash is a tokenize error. -/
def shellSplitGo : List Char → Nat → Option (List Char) → List (List Char) →
    Except String (List (List Char))
  | [], 0, none, acc => Except.ok acc
  | [], 0, some w, acc => Except.ok (acc ++ [w])
  | [], _, _, _ => Except.error "missing closing quote"
  | c :: rest, 0, cur, acc =>
    if isWs c then
      match cur with
      | none => shellSplitGo rest 0 none acc
      | some w => shellSplitGo rest 0 none (acc ++ [w])
    else if c = quoteChar then shellSplitGo rest 1 (some (cur.getD [])) acc
    else if c = dquoteChar then shellSplitGo rest 2 (some (cur.getD [])) acc
    else if c = backslashChar then
      match rest with
      | [] => Except.error "missing character after backslash"
      | d :: rest2 => shellSplitGo rest2 0 (some (cur.getD [] ++ [d])) acc
    else shellSplitGo rest 0 (some (cur.getD [] ++ [c])) acc
  | c :: rest, 1, cur, acc =>
    if c = quoteChar then shellSplitGo rest 0 (some (cur.getD [])) acc
    else shellSplitGo rest 1 (some (cur.getD [] ++ [c])) acc
  | c :: rest, _, cur, acc =>
    if c = dquoteChar then shellSplitGo rest 0 (some (cur.getD [])) acc
    else if c = backslashChar then
      match rest with
      | [] => Except.error "missing character after backslash"
      | d :: rest2 =>
        if d = dquoteChar || d = backslashChar || d = dollarChar || d = backquoteChar then
          shellSplitGo rest2 2 (some (cur.getD [] ++ [d])) acc
        else shellSplitGo rest2 2 (some (cur.getD [] ++ [backslashChar, d])) acc
    else shellSplitGo rest 2 (some (cur.getD [] ++ [c])) acc

/-- `shell_words::split`: quoting-aware splitting of one raw line. -/
def shellWords (line : String) : Except String (List String) :=
  (shellSplitGo line.toList 0 none []).map fun ws => ws.map fun w => String.mk w

/-- Lower-casing of one character (`str::to_lowercase`; the command
tokens this loop compares are ASCII). -/
def charLower (c : Char) : Char :=
  if 65 ≤ c.toNat ∧ c.toNat ≤ 90 then Char.ofNat (c.toNat + 32) else c

/-- `str::to_lowercase` over the whole token. -/
def strLower (s : String) : String := String.mk (s.toList.map charLower)

/-- One result of `Editor::readline`: a committed line, CTRL-C, CTRL-D,
or another editor error. -/
inductive ReadResult
  | line (s : String)
  | interrupted
  | eof
  | readErr (msg : String)
deriving DecidableEq

/-- The REPL-visible state: the pluggable processor state plus the
editor's in-memory history trail. -/
structure ReplState (S : Type) where
  proc : S
  history : List String
deriving DecidableEq

/-- What one loop iteration of `Repl::process_command` decides:
continue looping, `break` out of the loop, or propagate a processor
error (the `?` on `process_command`). -/
inductive IterControl (S E : Type)
  | cont (s : S)
  | brk (s : S)
  | fatal (s : S) (e : E)
deriving DecidableEq

/-- Observable effects of one loop iteration: whether
`add_history_entry` ran, whether the processor was invoked, and whether
parsing reported an error. -/
structure IterEffects where
  histAppended : Bool
  procCalled : Bool
  parseErrored : Bool
deriving DecidableEq

/-- One iteration of the loop in `Repl::process_command`
(src/rustyrepl/src/repl/mod.rs): read result → tokenize → empty check →
quit check on the lowercased head token → `add_history_entry` →
`C::try_parse_from` on the head-duplicated token list → dispatch.
Tokenize errors are logged and skipped; `Interrupted`, `Eof` and any
other readline error `break`; a processor error propagates as `fatal`. -/
def replIteration {C S E : Type} (split : String → Except String (List String))
    (is_quit : String → Bool) (tryParse : List String → ParseOutcome C)
    (proc : S → C → Except E S) (st : ReplState S) (rr : ReadResult) :
    IterControl (ReplState S) E × IterEffects :=
  match rr with
  | ReadResult.interrupted => (IterControl.brk st, ⟨false, false, false⟩)
  | ReadResult.eof => (IterControl.brk st, ⟨false, false, false⟩)
  | ReadResult.readErr _ => (IterControl.brk st, ⟨false, false, false⟩)
  | ReadResult.line l =>
    match split l with
    | Except.error _ => (IterControl.cont st, ⟨false, false, false⟩)
    | Except.ok commands =>
      let command := commands.headD ""
      if strLower command = "" then (IterControl.cont st, ⟨false, false, false⟩)
      else if is_quit (strLower command) then (IterControl.brk st, ⟨false, false, false⟩)
      else
        let st2 := { st with history := st.history ++ [l] }
        match tryParse (command :: commands) with
        | ParseOutcome.ok cli =>
          match proc st2.proc cli with
          | Except.ok s2 => (IterControl.cont { st2 with proc := s2 }, ⟨true, true, false⟩)
          | Except.error e => (IterControl.fatal st2 e, ⟨true, true, false⟩)
        | ParseOutcome.display _ => (IterControl.cont st2, ⟨true, false, false⟩)
        | ParseOutcome.err _ => (IterControl.cont st2, ⟨true, false, true⟩)

/-- How a whole `Repl::process_command` run ended: `finished` after a
loop `break` (history closed), or `failed` when a processor error
returned early through `?` (history NOT closed). `closedHistory` records
whether `close_history` ran. -/
inductive RunResult (S E : Type)
  | finished (s : S) (closedHistory : Bool)
  | failed (s : S) (e : E) (closedHistory : Bool)
deriving DecidableEq

/-- Whether `close_history` ran for this run outcome. -/
def RunResult.closedHistory {S E : Type} : RunResult S E → Bool
  | RunResult.finished _ c => c
  | RunResult.failed _ _ c => c

/-- Whether the run ended by propagating a processor error. -/
def RunResult.isFailed {S E : Type} : RunResult S E → Bool
  | RunResult.finished _ _ => false
  | RunResult.failed _ _ _ => true

/-- `Repl::process_command` over a finite sequence of read results: loop
the iteration until a `break` (then `close_history` runs and the function
returns `Ok`), or until a processor error returns early through `?`
(skipping `close_history`). An exhausted input list stands for the end of
the session and leaves the loop normally. -/
def replRun {C S E : Type} (split : String → Except String (List String))
    (is_quit : String → Bool) (tryParse : List String → ParseOutcome C)
    (proc : S → C → Except E S) (st : ReplState S) :
    List ReadResult → RunResult (ReplState S) E
  | [] => RunResult.finished st true
  | rr :: rest =>
    match replIteration split is_quit tryParse proc st rr with
    | (IterControl.cont st2, _) => replRun split is_quit tryParse proc st2 rest
    | (IterControl.brk st2, _) => RunResult.finished st2 true
    | (IterControl.fatal st2 e, _) => RunResult.failed st2 e false

/-- `CliProcessor::is_quit`: `matches!(command, "quit" | "exit")`. -/
def CliProcessor.is_quit (command : String) : Bool :=
  command = "quit" || command = "exit"

/-- `DBHelper::delete`: unwrap the active handle and delete the key
(idempotent at the store layer). -/
def DBHelper.delete (st : DBHelperState) (key : Bytes) : Option DBHelperState :=
  (DBHelper.get_cf_handle st st.current_cf).map fun cf =>
    { st with cfs := setCF st.cfs st.current_cf (cfDelete cf key) }

/-- The filesystem facts `Repl::get_history_file_path` inspects about the
user-supplied path string: `is_file`, `is_dir`, `is_absolute`, `exists`,
whether `extension()` is `Some`, and the component count. -/
structure PathFacts where
  is_file : Bool
  is_dir : Bool
  is_absolute : Bool
  exists_on_disk : Bool
  has_extension : Bool
  componentCount : Nat
deriving DecidableEq

/-- `DEFAULT_HISTORY_FILE_NAME` in src/rustyrepl/src/repl/mod.rs. -/
def DEFAULT_HISTORY_FILE_NAME : String := ".repl_history"

/-- `PathBuf::push` of a file name under a directory. -/
def pathPush (dir file : String) : String := dir ++ "/" ++ file

/-- `Repl::get_history_file_path`: the ordered match over the path facts.
Arm 1 uses the path verbatim (existing file, or absolute + existing +
extension); arm 2 appends the default history file name to an existing
directory; arm 3 resolves a bare not-yet-existing filename (one
component, with extension) under the home directory; the wildcard
disables history. A `none` argument also disables history. -/
def get_history_file_path (facts : String → PathFacts) (home_dir : Option String) :
    Option String → Option String
  | some history_file =>
    let f := facts history_file
    if f.is_file || (f.is_absolute && f.exists_on_disk && f.has_extension) then
      some history_file
    else if f.is_dir then some (pathPush history_file DEFAULT_HISTORY_FILE_NAME)
    else if f.has_extension && f.componentCount = 1 then
      home_dir.map fun home => pathPush home history_file
    else none
  | none => none

/-- Branch (a) of the C9 claim: existing file, or absolute + exists +
has an extension. -/
def branchA (f : PathFacts) : Prop :=
  f.is_file = true ∨
    (f.is_absolute = true ∧ f.exists_on_disk = true ∧ f.has_extension = true)

/-- Branch (b): not (a), and an existing directory. -/
def branchB (f : PathFacts) : Prop := ¬branchA f ∧ f.is_dir = true

/-- Branch (c): neither (a) nor (b), exactly one component with an
extension. -/
def branchC (f : PathFacts) : Prop :=
  ¬branchA f ∧ f.is_dir ≠ true ∧ f.has_extension = true ∧ f.componentCount = 1

/-- Branch (d): none of (a), (b), (c): history disabled. -/
def branchD (f : PathFacts) : Prop :=
  ¬branchA f ∧ f.is_dir ≠ true ∧ ¬(f.has_extension = true ∧ f.componentCount = 1)

/-- The C9 claim rendered as its own decision procedure, branch (a)
through (d) tried in order in the claim's words — the spec-side
counterpart compared against `get_history_file_path`. -/
def resolveHistorySpec (f : PathFacts) (history_file : String) (home_dir : Option String) :
    Option String :=
  if f.is_file = true ∨ (f.is_absolute = true ∧ f.exists_on_disk = true ∧ f.has_extension = true)
    then some history_file
  else if f.is_dir = true then some (pathPush history_file DEFAULT_HISTORY_FILE_NAME)
  else if f.has_extension = true ∧ f.componentCount = 1 then
    home_dir.map fun home => pathPush home history_file
  else none

theorem intercalate_singleton (sep a : Bytes) : List.intercalate sep [a] = a := by
  simp [List.intercalate]

theorem intercalate_cons_of_ne_nil (sep a : Bytes) (l : List Bytes) (h : l ≠ []) :
    List.intercalate sep (a :: l) = a ++ sep ++ List.intercalate sep l := by
  obtain ⟨b, l2, rfl⟩ := List.exists_cons_of_ne_nil h
  simp [List.intercalate, List.intersperse]

theorem findSub_spec (p : Bytes) :
    ∀ (l : Bytes) (i : Nat), findSub p l = some i → leadsWith p (l.drop i) = true := by
  intro l
  induction l with
  | nil =>
    intro i h
    by_cases hl : leadsWith p [] = true
    · simp only [findSub, hl, if_true, Option.some.injEq] at h
      subst h
      exact hl
    · simp [findSub, hl] at h
  | cons b bs ih =>
    intro i h
    by_cases hl : leadsWith p (b :: bs) = true
    · simp only [findSub, hl, if_true, Option.some.injEq] at h
      subst h
      exact hl
    · simp only [findSub, hl, if_false] at h
      cases hfs : findSub p bs with
      | none => rw [hfs] at h; simp at h
      | some j =>
        rw [hfs] at h
        simp at h
        subst h
        simpa using ih j hfs

theorem findSub_decomp (p text : Bytes) (i : Nat) (h : findSub p text = some i) :
    text = text.take i ++ p ++ text.drop (i + p.length) := by
  have hlead := findSub_spec p text i h
  have htake := (leadsWith_eq_take p (text.drop i)).mp hlead
  rw [List.append_assoc]
  conv_lhs => rw [← List.take_append_drop i text]
  congr 1
  conv_lhs => rw [← List.take_append_drop p.length (text.drop i)]
  rw [htake, List.drop_drop, Nat.add_comm]

theorem splitSub_ne_nil (p text : Bytes) : splitSub p text ≠ [] := by
  rw [splitSub]
  split
  · simp
  · split <;> simp

theorem highlight_and_reconstruction (p : Bytes) (hp : ¬p.length = 0) :
    ∀ (n : Nat) (text : Bytes), text.length ≤ n →
      highlight_go p text = List.intercalate (hlWrap p) (splitSub p text) ∧
      List.intercalate p (splitSub p text) = text := by
  intro n
  induction n with
  | zero =>
    intro text hlen
    have htext : text = [] := List.eq_nil_of_length_eq_zero (Nat.le_zero.mp hlen)
    subst htext
    have hfind : findSub p [] = none := by
      obtain ⟨a, as, hpa⟩ := List.exists_cons_of_ne_nil
        (fun h : p = [] => hp (by simp [h]))
      rw [hpa]
      simp [findSub, leadsWith]
    constructor
    · rw [highlight_go, dif_neg hp]
      split
      · rw [splitSub, dif_neg hp]
        split
        · exact (intercalate_singleton _ _).symm
        · rename_i j hsome; rw [hfind] at hsome; cases hsome
      · rename_i j hsome; rw [hfind] at hsome; cases hsome
    · rw [splitSub, dif_neg hp]
      split
      · exact intercalate_singleton _ _
      · rename_i j hsome; rw [hfind] at hsome; cases hsome
  | succ n ih =>
    intro text hlen
    cases hfind : findSub p text with
    | none =>
      constructor
      · rw [highlight_go, dif_neg hp]
        split
        · rw [splitSub, dif_neg hp]
          split
          · exact (intercalate_singleton _ _).symm
          · rename_i j hsome; rw [hfind] at hsome; cases hsome
        · rename_i j hsome; rw [hfind] at hsome; cases hsome
      · rw [splitSub, dif_neg hp]
        split
        · exact intercalate_singleton _ _
        · rename_i j hsome; rw [hfind] at hsome; cases hsome
    | some i =>
      have hbound := findSub_le_length p (fun h => hp (by simp [h])) text i hfind
      have hdroplen : (text.drop (i + p.length)).length ≤ n := by
        simp only [List.length_drop]
        omega
      obtain ⟨ihw, ihr⟩ := ih (text.drop (i + p.length)) hdroplen
      have hne := splitSub_ne_nil p (text.drop (i + p.length))
      constructor
      · rw [highlight_go, dif_neg hp]
        split
        · rename_i hnone; rw [hfind] at hnone; cases hnone
        · rename_i j hsome
          rw [hfind] at hsome
          injection hsome with hji
          subst hji
          rw [splitSub, dif_neg hp]
          split
          · rename_i hnone; rw [hfind] at hnone; cases hnone
          · rename_i j2 hsome2
            rw [hfind] at hsome2
            injection hsome2 with hj2
            subst hj2
            rw [intercalate_cons_of_ne_nil _ _ _ hne, ihw]
      · rw [splitSub, dif_neg hp]
        split
        · rename_i hnone; rw [hfind] at hnone; cases hnone
        · rename_i j hsome
          rw [hfind] at hsome
          injection hsome with hji
          subst hji
          rw [intercalate_cons_of_ne_nil _ _ _ hne, ihr]
          exact (findSub_decomp p text i hfind).symm

theorem windowsPos_any_iff (p : Bytes) (hp : p ≠ []) :
    ∀ k : Bytes, (((windowsPos p.length k).any fun w => w == p) = true ↔ p <:+: k) := by
  intro k
  induction k with
  | nil =>
    obtain ⟨a, as, rfl⟩ := List.exists_cons_of_ne_nil hp
    simp [windowsPos]
  | cons b rest ih =>
    by_cases hlen : p.length ≤ (b :: rest).length
    · simp only [windowsPos, hlen, if_true, List.any_cons, Bool.or_eq_true, beq_iff_eq, ih]
      constructor
      · rintro (htake | hinf)
        · exact (htake ▸ List.take_prefix p.length (b :: rest)).isInfix
        · exact List.infix_cons hinf
      · intro hinf
        rcases List.infix_cons_iff.mp hinf with hpre | hinf2
        · left; exact (List.prefix_iff_eq_take.mp hpre).symm
        · right; exact hinf2
    · simp only [windowsPos, hlen, if_false, List.any_nil, Bool.false_eq_true, false_iff]
      intro hinf
      exact hlen hinf.length_le

theorem windowsMatch_eq_infix (p k : Bytes) (hp : p ≠ []) :
    windowsMatch p k = some (decide (p <:+: k)) := by
  have hlen : ¬p.length = 0 := fun h => hp (List.length_eq_zero.mp h)
  simp only [windowsMatch, windows, hlen, if_false, Option.map_some', Option.some.injEq]
  by_cases hinf : p <:+: k
  · simp [hinf, (windowsPos_any_iff p hp k).mpr hinf]
  · rw [decide_eq_false hinf]
    exact Bool.eq_false_iff.mpr fun hc => hinf ((windowsPos_any_iff p hp k).mp hc)

theorem searchKeyGo_eq (p : Bytes) (hp : p ≠ []) (hl : Bool) :
    ∀ cf : CF, searchKeyGo p hl cf =
      some ((cf.filter fun e => decide (p <:+: e.1)).map fun e =>
        (e.1, if hl then highlight_pattern p e.2 else e.2)) := by
  intro cf
  induction cf with
  | nil => simp [searchKeyGo]
  | cons e rest ih =>
    obtain ⟨key, value⟩ := e
    simp only [searchKeyGo, windowsMatch_eq_infix p key hp, ih]
    by_cases hinf : p <:+: key
    · simp [hinf, List.filter_cons]
    · simp [hinf, List.filter_cons]

theorem searchValueGo_eq (p : Bytes) (hp : p ≠ []) (hl : Bool) :
    ∀ cf : CF, searchValueGo p hl cf =
      some ((cf.filter fun e => decide (p <:+: e.2)).map fun e =>
        (e.1, if hl then highlight_pattern p e.2 else e.2)) := by
  intro cf
  induction cf with
  | nil => simp [searchValueGo]
  | cons e rest ih =>
    obtain ⟨key, value⟩ := e
    simp only [searchValueGo, windowsMatch_eq_infix p value hp, ih]
    by_cases hinf : p <:+: value
    · simp [hinf, List.filter_cons]
    · simp [hinf, List.filter_cons]

/-- C5: on a sorted active column family, `Scan` yields exactly the
entries between the inclusive lower and exclusive upper bound, ascending
for `reverse = false` and descending for `reverse = true`; over keys
`{a..f}` with `start = "b"`, `end = "e"` it yields `[b, c, d]`, and
`[d, c, b]` reversed. -/
theorem scan_range_semantics (st : DBHelperState) (cf : CF) (start stop : Option Bytes)
    (hcf : DBHelper.get_cf_handle st st.current_cf = some cf) (hs : cfSorted cf) :
    (∃ r, DBHelper.scan st start stop false = some r ∧
      r.Pairwise (fun e f => bytesLt e.1 f.1 = true) ∧
      ∀ e, e ∈ r ↔ e ∈ cf ∧ inBounds start stop e.1 = true) ∧
    (∃ r, DBHelper.scan st start stop true = some r ∧
      r.Pairwise (fun e f => bytesLt f.1 e.1 = true) ∧
      ∀ e, e ∈ r ↔ e ∈ cf ∧ inBounds start stop e.1 = true) ∧
    DBHelper.scan (DBHelper.new "db" ["default"] fun _ => cfSix)
        (some [98]) (some [101]) false = some [([98], [0]), ([99], [0]), ([100], [0])] ∧
    DBHelper.scan (DBHelper.new "db" ["default"] fun _ => cfSix)
        (some [98]) (some [101]) true = some [([100], [0]), ([99], [0]), ([98], [0])] := by
  have hfilter : List.Sublist (cf.filter fun e => inBounds start stop e.1) cf :=
    List.filter_sublist cf
  refine ⟨⟨cf.filter fun e => inBounds start stop e.1, by simp [DBHelper.scan, hcf], ?_, ?_⟩,
    ⟨(cf.filter fun e => inBounds start stop e.1).reverse,
      by simp [DBHelper.scan, hcf], ?_, ?_⟩, by decide, by decide⟩
  · exact hs.sublist hfilter
  · intro e; simp [List.mem_filter]
  · exact (List.pairwise_reverse).mpr (hs.sublist hfilter)
  · intro e; simp [List.mem_filter]

/-- Witness for C5 at the concrete six-key column family. -/
theorem scan_range_semantics_witness :
    (∃ r, DBHelper.scan (DBHelper.new "db" ["default"] fun _ => cfSix)
        (some [98]) (some [101]) false = some r ∧
      r.Pairwise (fun e f => bytesLt e.1 f.1 = true) ∧
      ∀ e, e ∈ r ↔ e ∈ cfSix ∧ inBounds (some [98]) (some [101]) e.1 = true) ∧
    (∃ r, DBHelper.scan (DBHelper.new "db" ["default"] fun _ => cfSix)
        (some [98]) (some [101]) true = some r ∧
      r.Pairwise (fun e f => bytesLt f.1 e.1 = true) ∧
      ∀ e, e ∈ r ↔ e ∈ cfSix ∧ inBounds (some [98]) (some [101]) e.1 = true) ∧
    DBHelper.scan (DBHelper.new "db" ["default"] fun _ => cfSix)
        (some [98]) (some [101]) false = some [([98], [0]), ([99], [0]), ([100], [0])] ∧
    DBHelper.scan (DBHelper.new "db" ["default"] fun _ => cfSix)
        (some [98]) (some [101]) true = some [([100], [0]), ([99], [0]), ([98], [0])] :=
  scan_range_semantics (DBHelper.new "db" ["default"] fun _ => cfSix) cfSix
    (some [98]) (some [101]) (by decide) (by unfold cfSorted; decide)

/-- C4 counterexample: `SearchValue` with pattern `"X"` (byte 88) over the
single pair `(k, [88, 255])` returns the pair — the pattern does occur as a
contiguous byte substring of the value — yet the displayed value carries no
highlight marker, because `highlight_pattern` returns non-UTF-8 candidates
untouched. This refutes the unconditional "every occurrence of the pattern
is wrapped with the highlight marker in the displayed value". -/
theorem search_highlight_binary_counterexample :
    DBHelper.search_value [([107], [88, 255])] [88] true = some [([107], [88, 255])] ∧
    [88] <:+: [88, 255] ∧
    highlight_pattern [88] [88, 255] = [88, 255] := by
  refine ⟨?_, ?_, ?_⟩
  · decide
  · decide
  · decide

/-- C4 (amended): for a non-empty pattern, `search_key` returns exactly
the stored pairs whose key contains the pattern as a contiguous byte
substring, and `search_value` exactly those whose value does; in both
searches the returned key is the stored key unchanged (never highlighted,
also for `SearchKey`) and the returned value is the stored value, run
through `highlight_pattern` when highlighting is enabled. For a value
that decodes as UTF-8 the highlighted rendering is the value's segments
around the non-overlapping occurrences of the pattern joined by the
marker-wrapped pattern — every such occurrence wrapped — and joining the
same segments with the bare pattern restores the stored value
byte-exactly; a value that is not valid UTF-8 is displayed unchanged. -/
theorem search_semantics_and_highlight (cf : CF) (p : Bytes) (hl : Bool) (v : Bytes)
    (hp : p ≠ []) :
    DBHelper.search_key cf p hl =
      some ((cf.filter fun e => decide (p <:+: e.1)).map fun e =>
        (e.1, if hl then highlight_pattern p e.2 else e.2)) ∧
    DBHelper.search_value cf p hl =
      some ((cf.filter fun e => decide (p <:+: e.2)).map fun e =>
        (e.1, if hl then highlight_pattern p e.2 else e.2)) ∧
    (validUtf8 v = true →
      highlight_pattern p v = List.intercalate (hlWrap p) (splitSub p v) ∧
      List.intercalate p (splitSub p v) = v) ∧
    (validUtf8 v = false → highlight_pattern p v = v) := by
  have hplen : ¬p.length = 0 := fun h => hp (List.length_eq_zero.mp h)
  refine ⟨searchKeyGo_eq p hp hl cf, searchValueGo_eq p hp hl cf, ?_, ?_⟩
  · intro hv
    have hspec := highlight_and_reconstruction p hplen v.length v (le_refl _)
    refine ⟨?_, hspec.2⟩
    rw [highlight_pattern]
    rw [if_neg (by simp [List.isEmpty_iff, hp]), if_pos hv]
    exact hspec.1
  · intro hv
    rw [highlight_pattern]
    rw [if_neg (by simp [List.isEmpty_iff, hp]), if_neg (by simp [hv])]

/-- Witness for C4 (amended) on a concrete store: key `"ka"` / value
`"aXa"`-like bytes, pattern the single byte 88. -/
theorem search_semantics_and_highlight_witness :
    DBHelper.search_key [([107, 88], [97, 88])] [88] true =
      some (([([107, 88], [97, 88])].filter fun e => decide ([88] <:+: e.1)).map fun e =>
        (e.1, if true then highlight_pattern [88] e.2 else e.2)) ∧
    DBHelper.search_value [([107, 88], [97, 88])] [88] true =
      some (([([107, 88], [97, 88])].filter fun e => decide ([88] <:+: e.2)).map fun e =>
        (e.1, if true then highlight_pattern [88] e.2 else e.2)) ∧
    (validUtf8 [97, 88] = true →
      highlight_pattern [88] [97, 88] =
        List.intercalate (hlWrap [88]) (splitSub [88] [97, 88]) ∧
      List.intercalate [88] (splitSub [88] [97, 88]) = [97, 88]) ∧
    (validUtf8 [97, 88] = false → highlight_pattern [88] [97, 88] = [97, 88]) :=
  search_semantics_and_highlight [([107, 88], [97, 88])] [88] true [97, 88] (by decide)

/-- C10: evaluating the sliding-window matcher of `search_key` and
`search_value` is panic-free whenever the pattern is non-empty (the
window width handed to `windows` is positive), and the non-emptiness
precondition is genuinely required: on any non-empty partition the empty
pattern drives `windows(0)` into its runtime rejection (`none`). -/
theorem search_panic_freedom (cf : CF) (p : Bytes) (hl : Bool) (e : Entry) (rest : CF)
    (hp : p ≠ []) :
    (DBHelper.search_key cf p hl).isSome = true ∧
    (DBHelper.search_value cf p hl).isSome = true ∧
    DBHelper.search_key (e :: rest) [] hl = none ∧
    DBHelper.search_value (e :: rest) [] hl = none := by
  refine ⟨?_, ?_, ?_, ?_⟩
  · simp [DBHelper.search_key, searchKeyGo_eq p hp hl cf]
  · simp [DBHelper.search_value, searchValueGo_eq p hp hl cf]
  · obtain ⟨k, v⟩ := e
    simp [DBHelper.search_key, searchKeyGo, windowsMatch, windows]
  · obtain ⟨k, v⟩ := e
    simp [DBHelper.search_value, searchValueGo, windowsMatch, windows]

theorem is_quit_ne_empty (s : String) (h : CliProcessor.is_quit s = true) : s ≠ "" := by
  have h2 : s = "quit" ∨ s = "exit" := by simpa [CliProcessor.is_quit] using h
  rcases h2 with rfl | rfl <;> decide

theorem tryParseFrom_unrecognized (w : String) (h : recognizedHead w = false) :
    tryParseFrom [w, w] = ParseOutcome.err "unrecognized subcommand" := by
  simp only [recognizedHead, Bool.or_eq_false_iff, decide_eq_false_iff_not] at h
  simp [tryParseFrom, h]

/-- C2 counterexample: the line "frobnicate" tokenizes to a single
non-empty, non-quit token and fails to parse (`parseErrored = true`), yet
it IS appended to the history (`histAppended = true`), because
`add_history_entry` runs before `C::try_parse_from` in the loop body. -/
theorem history_append_before_parse_counterexample :
    replIteration shellWords CliProcessor.is_quit tryParseFrom
        (fun (s : Unit) (_ : DBCommand) => (Except.ok s : Except String Unit))
        ⟨(), []⟩ (ReadResult.line "frobnicate") =
      (IterControl.cont ⟨(), ["frobnicate"]⟩, ⟨true, false, true⟩) := by
  rfl

/-- C2 (amended): a line whose first token is non-empty and not a quit
token is appended to the history unconditionally — also when the grammar
rejects it with a parse error — while lines with an empty first token and
quit lines are never appended. -/
theorem history_append_policy {C S E : Type} (split : String → Except String (List String))
    (is_quit : String → Bool) (tryParse : List String → ParseOutcome C)
    (proc : S → C → Except E S) (st : ReplState S) (l1 l2 l3 : String)
    (c1 c2 c3 : List String)
    (h1 : split l1 = Except.ok c1) (h1ne : strLower (c1.headD "") ≠ "")
    (h1nq : is_quit (strLower (c1.headD "")) = false)
    (h2 : split l2 = Except.ok c2) (h2e : strLower (c2.headD "") = "")
    (h3 : split l3 = Except.ok c3) (h3q : is_quit (strLower (c3.headD "")) = true) :
    (replIteration split is_quit tryParse proc st (ReadResult.line l1)).2.histAppended = true ∧
    (replIteration split is_quit tryParse proc st (ReadResult.line l2)).2.histAppended = false ∧
    (replIteration split is_quit tryParse proc st (ReadResult.line l3)).2.histAppended = false := by
  refine ⟨?_, ?_, ?_⟩
  · simp only [replIteration, h1]
    rw [if_neg h1ne, if_neg (by rw [h1nq]; decide)]
    cases tryParse ((c1.headD "") :: c1) with
    | ok cli =>
      cases hp : proc st.proc cli with
      | ok s2 => simp [hp]
      | error e => simp [hp]
    | display t => rfl
    | err m => rfl
  · simp only [replIteration, h2]
    rw [if_pos h2e]
  · simp only [replIteration, h3]
    by_cases he : strLower (c3.headD "") = ""
    · rw [if_pos he]
    · rw [if_neg he, if_pos h3q]

/-- Witness for C2 (amended): "hello" is recorded although it parses to
an error, the empty line and the quit line "exit" are not recorded. -/
theorem history_append_policy_witness :
    (replIteration shellWords CliProcessor.is_quit tryParseFrom
      (fun (s : Unit) (_ : DBCommand) => (Except.ok s : Except String Unit))
      ⟨(), []⟩ (ReadResult.line "hello")).2.histAppended = true ∧
    (replIteration shellWords CliProcessor.is_quit tryParseFrom
      (fun (s : Unit) (_ : DBCommand) => (Except.ok s : Except String Unit))
      ⟨(), []⟩ (ReadResult.line "")).2.histAppended = false ∧
    (replIteration shellWords CliProcessor.is_quit tryParseFrom
      (fun (s : Unit) (_ : DBCommand) => (Except.ok s : Except String Unit))
      ⟨(), []⟩ (ReadResult.line "exit")).2.histAppended = false :=
  history_append_policy shellWords CliProcessor.is_quit tryParseFrom
    (fun (s : Unit) (_ : DBCommand) => (Except.ok s : Except String Unit))
    ⟨(), []⟩ "hello" "" "exit" ["hello"] [] ["exit"]
    (by rfl) (by decide) (by rfl) (by rfl) (by rfl) (by rfl) (by rfl)

/-- C3 counterexample: one line whose command parses, handed to a
processor whose `process_command` fails; the run ends `failed` with
`closedHistory = false` — `Repl::process_command` returns through `?`
before reaching `close_history`, so history is not persisted on the
unrecovered-processor-error path, contradicting the claim. -/
theorem fatal_skips_close_history_counterexample :
    replRun shellWords CliProcessor.is_quit tryParseFrom
        (fun (_ : Unit) (_ : DBCommand) => (Except.error "store error" : Except String Unit))
        ⟨(), []⟩ [ReadResult.line "list"] =
      RunResult.failed ⟨(), ["list"]⟩ "store error" false := by
  rfl

/-- C3 (amended): `close_history` (best-effort history persistence) runs
exactly on the non-fatal ways out of the loop — `Interrupted`,
`EndOfInput`, other read errors, a quit token, or exhausted input — and
does NOT run when an unrecovered processor error propagates out of
`process_command`. -/
theorem close_history_iff_not_fatal {C S E : Type}
    (split : String → Except String (List String)) (is_quit : String → Bool)
    (tryParse : List String → ParseOutcome C) (proc : S → C → Except E S)
    (st : ReplState S) (inputs : List ReadResult) :
    (replRun split is_quit tryParse proc st inputs).closedHistory =
      !(replRun split is_quit tryParse proc st inputs).isFailed := by
  induction inputs generalizing st with
  | nil => rfl
  | cons rr rest ih =>
    simp only [replRun]
    rcases replIteration split is_quit tryParse proc st rr with ⟨ctrl, eff⟩
    cases ctrl with
    | cont s2 => exact ih s2
    | brk s2 => rfl
    | fatal s2 e => rfl

/-- C7: a first token that lowercases to a quit token makes the loop
break without invoking the processor and without touching history, while
a single unrecognized non-quit word is handed to the grammar, rejected as
a parse error, recorded in history, and the loop continues to the next
prompt. -/
theorem quit_tokens_and_unrecognized_words {S E : Type} (proc : S → DBCommand → Except E S)
    (st : ReplState S) (l1 l2 : String) (c1 : List String) (w : String)
    (h1 : shellWords l1 = Except.ok c1)
    (hq : CliProcessor.is_quit (strLower (c1.headD "")) = true)
    (h2 : shellWords l2 = Except.ok [w])
    (hnq : CliProcessor.is_quit (strLower w) = false)
    (hur : recognizedHead w = false)
    (hwne : strLower w ≠ "") :
    replIteration shellWords CliProcessor.is_quit tryParseFrom proc st (ReadResult.line l1) =
      (IterControl.brk st, ⟨false, false, false⟩) ∧
    tryParseFrom [w, w] = ParseOutcome.err "unrecognized subcommand" ∧
    replIteration shellWords CliProcessor.is_quit tryParseFrom proc st (ReadResult.line l2) =
      (IterControl.cont { st with history := st.history ++ [l2] }, ⟨true, false, true⟩) := by
  refine ⟨?_, tryParseFrom_unrecognized w hur, ?_⟩
  · simp only [replIteration, h1]
    rw [if_neg (is_quit_ne_empty _ hq), if_pos hq]
  · simp only [replIteration, h2, List.headD_cons]
    rw [if_neg hwne, if_neg (by rw [hnq]; decide),
      tryParseFrom_unrecognized w hur]

/-- Witness for C7: "QUIT" terminates (case-insensitive quit matching);
"frobble" is unrecognized, parse-errors and re-prompts. -/
theorem quit_tokens_and_unrecognized_words_witness :
    replIteration shellWords CliProcessor.is_quit tryParseFrom
        (fun (s : Unit) (_ : DBCommand) => (Except.ok s : Except String Unit))
        ⟨(), []⟩ (ReadResult.line "QUIT") =
      (IterControl.brk ⟨(), []⟩, ⟨false, false, false⟩) ∧
    tryParseFrom ["frobble", "frobble"] = ParseOutcome.err "unrecognized subcommand" ∧
    replIteration shellWords CliProcessor.is_quit tryParseFrom
        (fun (s : Unit) (_ : DBCommand) => (Except.ok s : Except String Unit))
        ⟨(), []⟩ (ReadResult.line "frobble") =
      (IterControl.cont ⟨(), ["frobble"]⟩, ⟨true, false, true⟩) :=
  quit_tokens_and_unrecognized_words
    (fun (s : Unit) (_ : DBCommand) => (Except.ok s : Except String Unit))
    ⟨(), []⟩ "QUIT" "frobble" ["QUIT"] "frobble"
    (by rfl) (by rfl) (by rfl) (by rfl) (by rfl) (by decide)

/-- Witness for C10 on a concrete one-entry partition. -/
theorem search_panic_freedom_witness :
    (DBHelper.search_key [([5], [6])] [7] false).isSome = true ∧
    (DBHelper.search_value [([5], [6])] [7] false).isSome = true ∧
    DBHelper.search_key [([5], [6])] [] false = none ∧
    DBHelper.search_value [([5], [6])] [] false = none :=
  search_panic_freedom [([5], [6])] [7] false ([5], [6]) [] (by decide)

theorem getKeysLoop_length_le (limit : Nat) (cf : CF) :
    ∀ keys : List Bytes, keys.length < limit → (getKeysLoop limit cf keys).length ≤ limit := by
  induction cf with
  | nil => intro keys h; simpa [getKeysLoop] using Nat.le_of_lt h
  | cons e rest ih =>
    intro keys h
    obtain ⟨k, v⟩ := e
    simp only [getKeysLoop]
    by_cases hstop : limit ≤ (keys ++ [k]).length
    · rw [if_pos hstop]
      simp only [List.length_append, List.length_singleton]
      omega
    · rw [if_neg hstop]
      exact ih (keys ++ [k]) (Nat.lt_of_not_le hstop)

/-- C6 counterexample: `Keys` with `limit = 0` over a one-entry partition
still emits one row, because `get_keys` pushes a key before checking the
bound; one row is more than the supplied limit of zero, refuting the
claim that row counts never exceed `limit` when `all` is false. -/
theorem keys_limit_zero_counterexample :
    DBHelper.get_keys (DBHelper.new "db" ["default"] fun _ => [([97], [98])]) 0 =
        some [[97]] ∧
    ¬((1 : Nat) ≤ 0) := by
  exact ⟨by decide, by decide⟩

/-- C6 (amended): for `Scan`, `Prefix`, `SearchKey` and `SearchValue` the
rows emitted by `print_or_output_to_file` number at most `limit` when
`all` is false — for every `limit`, including the boundary `limit = 0`,
since `take(limit)` is applied — and are all of the matching rows when
`all` is true regardless of `limit`; for `Keys` the emitted count is at
most its limit `klimit` provided `klimit ≥ 1` (with `klimit = 0` one row
is still emitted when the partition is non-empty, per the
counterexample). -/
theorem emitted_rows_bounded (key_values : List Entry) (all : Bool) (limit klimit : Nat)
    (output : Option String) (st : DBHelperState) (hklim : 1 ≤ klimit) :
    (all = false →
      (CliProcessor.print_or_output_to_file key_values all limit output).2.length ≤ limit) ∧
    (all = true →
      (CliProcessor.print_or_output_to_file key_values all limit output).2 = key_values) ∧
    (∀ keys, DBHelper.get_keys st klimit = some keys → keys.length ≤ klimit) := by
  refine ⟨?_, ?_, ?_⟩
  · intro hall
    cases output <;> simp [CliProcessor.print_or_output_to_file, hall, List.length_take_le]
  · intro hall
    cases output <;> simp [CliProcessor.print_or_output_to_file, hall]
  · intro keys hkeys
    simp only [DBHelper.get_keys] at hkeys
    obtain ⟨cf, hcf, hrun⟩ := Option.map_eq_some'.mp hkeys
    exact hrun ▸ getKeysLoop_length_le klimit cf [] (by simpa using hklim)

/-- Witness for C6 (amended) at concrete inputs, exercising the
`limit = 0` boundary of the `take(limit)` routing. -/
theorem emitted_rows_bounded_witness :
    ((false : Bool) = false →
      (CliProcessor.print_or_output_to_file [([1], [2]), ([3], [4])] false 0 none).2.length ≤ 0) ∧
    ((false : Bool) = true →
      (CliProcessor.print_or_output_to_file [([1], [2]), ([3], [4])] false 0 none).2 =
        [([1], [2]), ([3], [4])]) ∧
    (∀ keys,
      DBHelper.get_keys (DBHelper.new "db" ["default"] fun _ => [([1], [2]), ([3], [4])]) 1 =
        some keys → keys.length ≤ 1) :=
  emitted_rows_bounded [([1], [2]), ([3], [4])] false 0 1 none
    (DBHelper.new "db" ["default"] fun _ => [([1], [2]), ([3], [4])]) (by decide)

/-- C9: `get_history_file_path` is a total, deterministic function of the
path facts: it coincides with the branchwise rendering
`resolveHistorySpec` of the claim, a missing path disables history,
exactly one of the four ordered branches (a)-(d) holds for every fact
combination, and each branch forces the stated result (verbatim path,
directory plus default file name, home-resolved bare file name, or
disabled history). -/
theorem history_path_resolution (facts : String → PathFacts) (home_dir : Option String)
    (history_file : String) :
    (get_history_file_path facts home_dir (some history_file) =
      resolveHistorySpec (facts history_file) history_file home_dir) ∧
    get_history_file_path facts home_dir none = none ∧
    ((branchA (facts history_file) ∧ ¬branchB (facts history_file) ∧
        ¬branchC (facts history_file) ∧ ¬branchD (facts history_file)) ∨
      (¬branchA (facts history_file) ∧ branchB (facts history_file) ∧
        ¬branchC (facts history_file) ∧ ¬branchD (facts history_file)) ∨
      (¬branchA (facts history_file) ∧ ¬branchB (facts history_file) ∧
        branchC (facts history_file) ∧ ¬branchD (facts history_file)) ∨
      (¬branchA (facts history_file) ∧ ¬branchB (facts history_file) ∧
        ¬branchC (facts history_file) ∧ branchD (facts history_file))) ∧
    (branchA (facts history_file) →
      get_history_file_path facts home_dir (some history_file) = some history_file) ∧
    (branchB (facts history_file) →
      get_history_file_path facts home_dir (some history_file) =
        some (pathPush history_file DEFAULT_HISTORY_FILE_NAME)) ∧
    (branchC (facts history_file) →
      get_history_file_path facts home_dir (some history_file) =
        home_dir.map fun home => pathPush home history_file) ∧
    (branchD (facts history_file) →
      get_history_file_path facts home_dir (some history_file) = none) := by
  simp only [get_history_file_path, resolveHistorySpec, branchA, branchB, branchC, branchD]
  by_cases h1 : (facts history_file).is_file = true <;>
    by_cases h2 : (facts history_file).is_dir = true <;>
      by_cases h3 : (facts history_file).is_absolute = true <;>
        by_cases h4 : (facts history_file).exists_on_disk = true <;>
          by_cases h5 : (facts history_file).has_extension = true <;>
            by_cases h6 : (facts history_file).componentCount = 1 <;>
              simp_all

end RocksCli
